import Mathlib

/-!
Verification of the PDF outline-extraction and hybrid section-ranking system.

The development shallowly embeds three program units:
* `C1b` — the hybrid ranking pipeline of `Challenge_1b/app.py`
  (section segmentation, semantic ranking, LLM re-ranking with fallback);
* `C1a` — the multi-pass rule engine of `Challenge_1a/outline_extractor.py`;
* `WebApp` — the statistical classifier driver of `pdfwebApp/backend/inference.py`.

Modelling conventions: Python floats are embedded as exact rationals
(so the literal 1.15 becomes 23/20 and 0.85 becomes 85/100); Python
lists become `List`; dictionaries with a fixed key set become structures;
fallible operations return `Option` where an uncaught exception is
possible. External effects (the PDF reader, the cross-encoder scores,
the trained classifier, the LLM transport) are inputs of the embedded
functions. Python `isinstance(x, int)` accepts `bool` (a subclass of
`int`, with `True == 1` and `False == 0`); the embedding keeps that
behaviour in `pyIntOfJson`.
-/

/- Rational arithmetic from Batteries is `@[irreducible]`; closed
instances of the embedded functions are evaluated with `decide`, so the
three arithmetic operations used here are restored to semireducible. -/
unseal Rat.mul Rat.add Rat.sub


namespace Py

/-- The ASCII fragment of Python whitespace (`\\s`, `str.strip`). -/
def isPySpace (c : Char) : Bool :=
  c == ' ' || c == '\t' || c == '\n' || c == '\r' || c == '\x0b' || c == '\x0c'

/-- Python `str.lower` (ASCII fragment), written on the character list
so that proofs can evaluate it. -/
def pyLower (s : String) : String := ⟨s.data.map Char.toLower⟩

/-- Python `str.strip` (ASCII whitespace fragment): drop whitespace from
both ends. -/
def pyStrip (s : String) : String :=
  ⟨((s.data.dropWhile isPySpace).reverse.dropWhile isPySpace).reverse⟩

/-- Python `pat in s`: substring occurrence. -/
def containsSub (pat s : String) : Bool :=
  (List.range (s.length + 1)).any (fun i => pat.data.isPrefixOf (s.data.drop i))

/-- An anchored literal match at the start of a string. -/
def startsWithStr (pat s : String) : Bool := pat.data.isPrefixOf s.data

/-- Python `sep.join(ts)`. -/
def pyJoin (sep : String) : List String → String
  | [] => ""
  | t :: rest => rest.foldl (fun r x => r ++ sep ++ x) t

/-- Exact rational division written through `Rat.divInt` so that closed
instances evaluate inside the kernel; `fdiv_eq_div` shows it is the
field division of `ℚ`. Fraction literals are likewise written with
`mkRat` (`mkRat 85 100` is the float literal 0.85). -/
def fdiv (a b : ℚ) : ℚ := Rat.divInt (a.num * b.den) (a.den * b.num)

theorem fdiv_eq_div (a b : ℚ) : fdiv a b = a / b := by
  rcases eq_or_ne b 0 with hb | hb
  · subst hb
    simp [fdiv]
  · have hbn : (b.num : ℚ) ≠ 0 := by
      exact_mod_cast Rat.num_ne_zero.mpr hb
    have had : (a.den : ℚ) ≠ 0 := by
      exact_mod_cast a.den_nz
    have hbd : (b.den : ℚ) ≠ 0 := by
      exact_mod_cast b.den_nz
    rw [fdiv, Rat.divInt_eq_div]
    push_cast
    rw [div_eq_div_iff (mul_ne_zero had hbn) hb]
    have h1 : (a.num : ℚ) = a * a.den := by
      have h := congrArg (fun x : ℚ => x * (a.den : ℚ)) (Rat.num_div_den a)
      simpa [div_mul_cancel₀, had] using h
    have h2 : (b.num : ℚ) = b * b.den := by
      have h := congrArg (fun x : ℚ => x * (b.den : ℚ)) (Rat.num_div_den b)
      simpa [div_mul_cancel₀, hbd] using h
    rw [h1, h2]
    ring

theorem mkRat_eq_divQ (n : Int) (d : Nat) : mkRat n d = (n : ℚ) / d := by
  rw [Rat.mkRat_eq_divInt, Rat.divInt_eq_div]
  norm_num

end Py

namespace C1b

/-- JSON values as produced by `json.loads`; integral and non-integral
numbers are separated because `isinstance(x, int)` distinguishes them. -/
inductive Json where
  | jnull : Json
  | jbool : Bool → Json
  | jnum : Int → Json
  | jfloat : ℚ → Json
  | jstr : String → Json
  | jarr : List Json → Json
  | jobj : List (String × Json) → Json

/-- Outcome of the `ollama.chat` call in `call_llm_for_ranking`:
the transport may raise, the content may fail to decode as JSON,
or a JSON value is obtained. -/
inductive LLMResponse where
  | transportError : LLMResponse
  | decodeError : LLMResponse
  | ok : Json → LLMResponse

/-- Python `isinstance(x, int)` with the value it yields when used as a
list index: genuine ints pass, and `bool` passes as well because it is
an `int` subclass (`True` indexes as 1, `False` as 0). -/
def pyIntOfJson : Json → Option Int
  | .jnum n => some n
  | .jbool b => some (if b then 1 else 0)
  | _ => none

/-- Evaluate an `Option`-valued map across a list, failing if any
element fails (the shape of `all(isinstance(i, int) for i in xs)`
followed by use of the list, and of a list comprehension whose body
can raise). -/
def mapOpt (f : α → Option β) : List α → Option (List β)
  | [] => some []
  | a :: as =>
    match f a, mapOpt f as with
    | some b, some bs => some (b :: bs)
    | _, _ => none

/-- `call_llm_for_ranking` (app.py lines 115-131): any transport or
JSON-decode failure, or a JSON value that is not a list whose every
element passes the `isinstance(_, int)` check, yields the empty list. -/
def call_llm_for_ranking : LLMResponse → List Int
  | .transportError => []
  | .decodeError => []
  | .ok (.jarr xs) =>
    match mapOpt pyIntOfJson xs with
    | some is => is
    | none => []
  | .ok _ => []

/-- A section record as assembled in `run_hybrid_analysis` after the
`source_doc` tag is attached. -/
structure Sec where
  heading : String
  content : String
  page : Nat
  source_doc : String
deriving DecidableEq, Repr

/-- The static heading blacklist of `run_hybrid_analysis`. -/
def blacklist : List String := ["introduction", "conclusion", "references", "abstract"]

/-- The filter predicate of app.py line 168:
`section['heading'].lower().strip() not in blacklist`. -/
def keepSec (s : Sec) : Bool := ! blacklist.contains (Py.pyStrip (Py.pyLower s.heading))

/-- Blacklist filtering and truncation (app.py lines 165-173): filter,
take the top 20, and if nothing survives fall back to the unfiltered
top 20. -/
def highValueCandidates (ranked : List Sec) : List Sec :=
  let filtered := (ranked.filter keepSec).take 20
  if filtered.isEmpty then ranked.take 20 else filtered

/-- Python list indexing `xs[i]`: nonnegative indices address from the
front, negative indices address from the back, and anything out of
range raises `IndexError` (here `none`). -/
def pyGet (xs : List α) (i : Int) : Option α :=
  if 0 ≤ i then xs.get? i.toNat
  else if (-i).toNat ≤ xs.length then xs.get? (xs.length - (-i).toNat) else none

/-- The re-rank branch of app.py lines 190-191: gather the candidates at
the returned indices (skipping indices `≥ len`, where Python would also
accept negative indices), then extend with every candidate not already
present, by value equality. -/
def rerankWithIndices (cands : List Sec) (idxs : List Int) : Option (List Sec) :=
  match mapOpt (pyGet cands) (idxs.filter (fun i => i < (cands.length : Int))) with
  | none => none
  | some first => some (first ++ cands.filter (fun s => ! first.contains s))

/-- Stable descending sort by score, as
`sorted(zip(sections, scores), key=lambda x: x[1], reverse=True)`. -/
def semanticRank (scored : List (Sec × ℚ)) : List Sec :=
  (List.insertionSort (fun a b : Sec × ℚ => b.2 ≤ a.2) scored).map Prod.fst

/-- Ordering core of `run_hybrid_analysis` (app.py lines 157-195): the
value of `final_ranked_sections` from the semantically scored pool and
the LLM response. `none` models an uncaught `IndexError` from a negative
index reaching too far back. The top-10/top-5 output formatting consumes
this list in order. -/
def run_hybrid_analysis (scored : List (Sec × ℚ)) (resp : LLMResponse) : Option (List Sec) :=
  let hvc := highValueCandidates (semanticRank scored)
  let idxs := call_llm_for_ranking resp
  if idxs.isEmpty then some hvc else rerankWithIndices hvc idxs

/-- A text span as delivered by `page.get_text("dict")`: text, font size
and the flags bitfield (bit 16 marks bold). -/
structure Span1b where
  text : String
  size : ℚ
  flags : Nat
deriving DecidableEq, Repr

/-- A line of spans inside a block. -/
structure Line1b where
  spans : List Span1b
deriving DecidableEq, Repr

/-- A text block; image blocks (dicts without a `"lines"` key) behave
exactly like blocks with no lines, so both are embedded as `lines = []`. -/
structure Block1b where
  lines : List Line1b
deriving DecidableEq, Repr

/-- An emitted section of `extract_document_structure`
(before the `source_doc` tag is attached). -/
structure SecB where
  heading : String
  content : String
  page : Nat
deriving DecidableEq, Repr

/-- `statistics.median`: sort, take the middle element for odd length
or the mean of the two middle elements for even length. -/
def pyMedian (xs : List ℚ) : ℚ :=
  let s := List.insertionSort (fun a b : ℚ => a ≤ b) xs
  let n := s.length
  if n % 2 = 1 then s.getD (n / 2) 0
  else Py.fdiv (s.getD (n / 2 - 1) 0 + s.getD (n / 2) 0) 2

/-- `_calculate_median_font_size`: median span size over the first five
pages, defaulting to 12.0 when no span exists. -/
def calculate_median_font_size (pages : List (List Block1b)) : ℚ :=
  let sizes := (pages.take 5).flatMap
    (fun blocks => blocks.flatMap (fun b => (b.lines.flatMap Line1b.spans).map Span1b.size))
  if sizes.isEmpty then 12 else pyMedian sizes

/-- `_is_heading`: the first span of the first line is bold (flag bit 16)
or larger than 1.15 times the median size; blocks without lines or whose
first line has no spans are not headings. -/
def is_heading (b : Block1b) (median : ℚ) : Bool :=
  match b.lines with
  | [] => false
  | l :: _ =>
    match l.spans with
    | [] => false
    | s :: _ => decide (median * mkRat 23 20 < s.size) || (s.flags.land 16 != 0)

/-- The joined, stripped text of a block:
`" ".join(span text for line in lines for span in spans).strip()`. -/
def blockText (b : Block1b) : String :=
  Py.pyStrip (Py.pyJoin " " ((b.lines.flatMap Line1b.spans).map Span1b.text))

/-- Loop state of `extract_document_structure`: the open heading, its
accumulated body texts, and the sections emitted so far. -/
structure SegState where
  currentHeading : String
  currentContent : List String
  sections : List SecB
deriving DecidableEq, Repr

/-- One iteration of the block loop (app.py lines 86-102): skip empty
text; on a heading flush the open section if it has content and start a
new one; otherwise accumulate body text. -/
def processBlock (median : ℚ) (pageNum : Nat) (st : SegState) (b : Block1b) : SegState :=
  let text := blockText b
  if text = "" then st
  else if is_heading b median then
    let sections :=
      if st.currentHeading != "" && !st.currentContent.isEmpty then
        st.sections ++ [⟨st.currentHeading, Py.pyJoin " " st.currentContent, pageNum⟩]
      else st.sections
    ⟨text, [], sections⟩
  else ⟨st.currentHeading, st.currentContent ++ [text], st.sections⟩

/-- Per-document page cap. -/
def MAX_PAGES_TO_SCAN : Nat := 50

/-- `extract_document_structure` (app.py lines 67-113), text part: fold
the block loop over the first 50 pages starting from the open heading
"Introduction", and flush a final section with page `len(doc) - 1` if
content remains. -/
def extract_document_structure (pages : List (List Block1b)) : List SecB :=
  let median := calculate_median_font_size pages
  let final := (pages.take MAX_PAGES_TO_SCAN).enum.foldl
    (fun st pb => pb.2.foldl (processBlock median pb.1) st)
    ⟨"Introduction", [], []⟩
  if final.currentHeading != "" && !final.currentContent.isEmpty then
    final.sections ++
      [⟨final.currentHeading, Py.pyJoin " " final.currentContent, pages.length - 1⟩]
  else final.sections

end C1b

namespace C1a

/-- A span of the `get_text("dict")` structure: text and font size. -/
structure SpanA where
  text : String
  size : ℚ
deriving DecidableEq, Repr

/-- A line of spans. -/
structure LineA where
  spans : List SpanA
deriving DecidableEq, Repr

/-- A block with the vertical start `bbox[1]` of its bounding box and
its lines (blocks without lines behave as `lines = []`). -/
structure BlockA where
  y0 : ℚ
  lines : List LineA
deriving DecidableEq, Repr

/-- A page: its height, its blocks, and the outcome of
`page.search_for("1. Introduction to the Foundation Level Extensions")`,
which is computed by the external PDF library. -/
structure PageA where
  height : ℚ
  blocks : List BlockA
  containsAnchor : Bool
deriving DecidableEq, Repr

/-- Input to `extract_outline`: `fitz.open` either raises with a message
or yields the page list. -/
inductive PdfInput where
  | openError (msg : String)
  | doc (pages : List PageA)

/-- One outline entry of the final result. -/
structure OutlineEntry where
  level : String
  text : String
  page : Nat
deriving DecidableEq, Repr

/-- The result dictionary of `extract_outline`. -/
structure OutlineResult where
  title : String
  outline : List OutlineEntry
deriving DecidableEq, Repr

/-- Pass-1 fold step (outline_extractor.py lines 33-35): a span strictly
larger than the running maximum replaces the candidate title with its
stripped text. -/
def spanStep (acc : String × ℚ) (s : SpanA) : String × ℚ :=
  if acc.2 < s.size then (Py.pyStrip s.text, s.size) else acc

/-- The spans of the blocks that start above the footer margin, in
iteration order. -/
def includedSpans (page : PageA) : List SpanA :=
  (page.blocks.filter (fun b => b.y0 < page.height * mkRat 85 100)).flatMap
    (fun b => b.lines.flatMap LineA.spans)

/-- Pass 1 (outline_extractor.py lines 22-35): scan the first page,
ignoring blocks whose top is in the bottom 15 percent, keeping the text
of the strictly-largest span seen so far. -/
def titlePass (page : PageA) : String :=
  (page.blocks.foldl
    (fun acc b =>
      if b.y0 < page.height * mkRat 85 100 then (b.lines.flatMap LineA.spans).foldl spanStep acc
      else acc)
    ("", 0)).1

/-- The fixed keyword set of Pass 2. -/
def intro_candidates : List String := ["Revision History", "Table of Contents", "Acknowledgements"]

/-- Line text as built in passes 2 and 3:
`" ".join(s['text'].strip() for s in spans).strip()`. -/
def lineText (l : LineA) : String :=
  Py.pyStrip (Py.pyJoin " " (l.spans.map (fun s => Py.pyStrip s.text)))

/-- Pass 2 (outline_extractor.py lines 38-55): on the first five pages,
a line whose text is exactly one of the keywords and whose first span is
larger than 14 becomes an H1 with a trailing space and 1-based page. -/
def introPass (pages : List PageA) : List OutlineEntry :=
  (pages.take 5).enum.flatMap (fun ip =>
    ip.2.blocks.flatMap (fun b =>
      b.lines.filterMap (fun l =>
        match l.spans with
        | [] => none
        | s0 :: _ =>
          let t := lineText l
          if intro_candidates.contains t && decide ((14:ℚ) < s0.size) then
            some ⟨"H1", t ++ " ", ip.1 + 1⟩
          else none)))

/-- The regex `^\d+[\.\d]*\s+` of Pass 3: a leading digit, then the
maximal run of digits and dots, then a whitespace character. -/
def heading_pattern (s : String) : Bool :=
  match s.toList with
  | [] => false
  | c :: _ =>
    c.isDigit &&
      (match s.toList.dropWhile (fun ch => ch.isDigit || ch == '.') with
       | [] => false
       | w :: _ => Py.isPySpace w)

/-- Round-half-to-even on rationals, the rounding mode of Python
`round`. -/
def roundHalfEven (q : ℚ) : ℤ :=
  let f := ⌊q⌋
  let frac := q - f
  if frac < mkRat 1 2 then f
  else if mkRat 1 2 < frac then f + 1
  else if f % 2 = 0 then f else f + 1

/-- Python `round(x, 2)`. -/
def round2 (q : ℚ) : ℚ := mkRat (roundHalfEven (q * 100)) 100

/-- The unspaced join used for the look-ahead merge:
`"".join(s['text'].strip() for s in spans)`. -/
def lineTextNoSpace (l : LineA) : String :=
  Py.pyJoin "" (l.spans.map (fun s => Py.pyStrip s.text))

/-- A Pass-3 candidate before level assignment. -/
structure MainHeading where
  text : String
  size : ℚ
  page : Nat
deriving DecidableEq, Repr

/-- The first page containing the anchor phrase, else page 0
(outline_extractor.py lines 60-65). -/
def startPageIdx (pages : List PageA) : Nat :=
  match pages.findIdx? PageA.containsAnchor with
  | some i => i
  | none => 0

/-- Pass-3 treatment of one line (outline_extractor.py lines 75-97):
a candidate if the text matches the numbering pattern and the rounded
first-span size exceeds 11.0; if the next line of the same block exists,
has spans and does not itself match the pattern, its unspaced text is
appended (one-line look-ahead merge). -/
def mainPassLine (lines : List LineA) (idx : Nat) (l : LineA) (pageNo : Nat) :
    Option MainHeading :=
  match l.spans with
  | [] => none
  | s0 :: _ =>
    let t := lineText l
    let fs := round2 s0.size
    if heading_pattern t && decide ((11:ℚ) < fs) then
      let t2 :=
        match lines.get? (idx + 1) with
        | none => t
        | some nl =>
          match nl.spans with
          | [] => t
          | _ :: _ =>
            let nt := lineTextNoSpace nl
            if heading_pattern nt then t else t ++ nt
      some ⟨t2, fs, pageNo⟩
    else none

/-- Pass 3 (outline_extractor.py lines 57-97): scan pages from the
anchor page onward and collect candidates with 1-based page numbers. -/
def mainPass (pages : List PageA) : List MainHeading :=
  let start := startPageIdx pages
  (pages.enum.filter (fun ip => start ≤ ip.1)).flatMap (fun ip =>
    ip.2.blocks.flatMap (fun b =>
      b.lines.enum.filterMap (fun il => mainPassLine b.lines il.1 il.2 (ip.1 + 1))))

/-- `sorted(list(set(sizes)), reverse=True)`: the distinct sizes in
strictly descending order. -/
def distinctSizesDesc (sizes : List ℚ) : List ℚ :=
  List.insertionSort (fun a b : ℚ => a ≥ b) sizes.dedup

/-- Index of the first occurrence of a size in the distinct-size list. -/
def findIdxQ (s : ℚ) : List ℚ → Option Nat
  | [] => none
  | x :: xs => if x = s then some 0 else (findIdxQ s xs).map (· + 1)

/-- `size_to_level_map.get(size, "H9")` as a level number: the i-th
largest distinct size maps to i+1, anything else to 9. -/
def sizeLevel (sizes : List ℚ) (s : ℚ) : Nat :=
  match findIdxQ s sizes with
  | some i => i + 1
  | none => 9

/-- Renders a level number as the level string. -/
def levelString (n : Nat) : String := "H" ++ toString n

/-- The distinct Pass-3 sizes of a candidate list, descending. -/
def sizesOf (hs : List MainHeading) : List ℚ :=
  distinctSizesDesc (hs.map MainHeading.size)

/-- Pass 4 (outline_extractor.py lines 100-108): assign each candidate
the level of its size and append a trailing space to its text. -/
def assignLevels (hs : List MainHeading) : List OutlineEntry :=
  hs.map (fun h => ⟨levelString (sizeLevel (sizesOf hs) h.size), h.text ++ " ", h.page⟩)

/-- `sorted(intro_headings + main_content_headings, key=lambda x: x['page'])`:
a stable ascending sort by page. -/
def sortByPage (l : List OutlineEntry) : List OutlineEntry :=
  List.insertionSort (fun a b : OutlineEntry => a.page ≤ b.page) l

/-- The deduplication loop (outline_extractor.py lines 111-117) with its
`seen_texts` set carried as the list of already-kept texts. -/
def dedupFold : List OutlineEntry → List OutlineEntry × List String → List OutlineEntry × List String
  | [], acc => acc
  | h :: t, acc =>
    dedupFold t (if acc.2.contains h.text then acc else (acc.1 ++ [h], acc.2 ++ [h.text]))

/-- Keep only the first entry bearing each text. -/
def dedupByText (l : List OutlineEntry) : List OutlineEntry :=
  (dedupFold l ([], [])).1

/-- Assembly (outline_extractor.py lines 110-122): combine, stable-sort
by page, deduplicate by text keeping first occurrences, then subtract 1
from every page. -/
def assembleOutline (intro : List OutlineEntry) (main : List OutlineEntry) : List OutlineEntry :=
  (dedupByText (sortByPage (intro ++ main))).map (fun e => ⟨e.level, e.text, e.page - 1⟩)

/-- `extract_outline` (outline_extractor.py): diagnostic results for an
unopenable or empty document, otherwise the four passes and assembly. -/
def extract_outline : PdfInput → OutlineResult
  | .openError e => ⟨"Error opening PDF: " ++ e, []⟩
  | .doc pages =>
    match pages with
    | [] => ⟨"Empty or invalid PDF", []⟩
    | p0 :: _ =>
      ⟨titlePass p0, assembleOutline (introPass pages) (assignLevels (mainPass pages))⟩

end C1a

namespace WebApp

/-- A cased character in the sense of `str.isupper` / `str.istitle`
(ASCII fragment). -/
def pyIsCased (c : Char) : Bool := c.isUpper || c.isLower

/-- Python `str.isupper`: at least one cased character and no lowercase
one. -/
def pyIsUpperStr (s : String) : Bool :=
  s.toList.any pyIsCased && s.toList.all (fun c => ! c.isLower)

/-- Python `str.istitle`: uppercase letters only after uncased
characters, lowercase letters only after cased ones, and at least one
cased character. -/
def pyIsTitleStr (s : String) : Bool :=
  let r := s.toList.foldl
    (fun (acc : Bool × Bool × Bool) c =>
      let ok := acc.1 &&
        (if c.isUpper then ! acc.2.1 else if c.isLower then acc.2.1 else true)
      (ok, pyIsCased c, acc.2.2 || pyIsCased c))
    (true, false, false)
  r.1 && r.2.2

/-- `get_text_case` (inference.py lines 33-39). -/
def get_text_case (s : String) : String :=
  if pyIsUpperStr s then "upper" else if pyIsTitleStr s then "title" else "other"

/-- One `\d+\.` group of the regex `(\d+\.)+`: digits then a dot,
returning the remaining characters. -/
def numGroup : List Char → Option (List Char)
  | c :: rest =>
    if c.isDigit then
      match rest.dropWhile Char.isDigit with
      | '.' :: rest2 => some rest2
      | _ => none
    else none
  | [] => none

/-- Consume further `\d+\.` groups greedily (fuel bounded by the list
length; each group consumes at least two characters). -/
def numGroupsRest (fuel : Nat) (cs : List Char) : List Char :=
  match fuel with
  | 0 => cs
  | fuel' + 1 =>
    match numGroup cs with
    | some rest => numGroupsRest fuel' rest
    | none => cs

/-- Branch `(\d+\.)+\s` of the `is_potential_heading` regex. Because
every group ends in a dot and `\s` accepts neither digits nor dots,
maximal munch agrees with the backtracking regex. -/
def matchDotNumbering (cs : List Char) : Bool :=
  match numGroup cs with
  | none => false
  | some rest =>
    match numGroupsRest cs.length rest with
    | w :: _ => Py.isPySpace w
    | [] => false

/-- Branch `[A-Z]\.\s`. -/
def matchLetterDot : List Char → Bool
  | c :: '.' :: w :: _ => ('A' ≤ c && c ≤ 'Z') && Py.isPySpace w
  | _ => false

/-- Roman-numeral characters of the third branch. -/
def isRoman (c : Char) : Bool := ['I', 'V', 'X', 'L', 'C', 'D', 'M'].contains c

/-- Branch `[IVXLCDM]+\.\s` (maximal munch again agrees with the
regex). -/
def matchRomanDot (cs : List Char) : Bool :=
  match cs with
  | c :: _ =>
    isRoman c &&
      (match cs.dropWhile isRoman with
       | '.' :: w :: _ => Py.isPySpace w
       | _ => false)
  | [] => false

/-- The case-insensitive keyword alternatives, already lowered. -/
def keywordList : List String :=
  ["abstract", "introduction", "conclusion", "references", "index terms"]

/-- `re.match(r'^(Abstract|Introduction|Conclusion|References|Index Terms)', text, re.IGNORECASE)`:
an unanchored-end, case-insensitive literal match at the start. -/
def startsWithKeyword (s : String) : Bool :=
  keywordList.any (fun k => Py.startsWithStr k (Py.pyLower s))

/-- `is_potential_heading` (inference.py lines 19-31): strip, then the
numbering regex or the keyword regex. -/
def is_potential_heading (text : String) : Bool :=
  let t := Py.pyStrip text
  matchDotNumbering t.toList || matchLetterDot t.toList || matchRomanDot t.toList
    || startsWithKeyword t

/-- A word of `page.extract_words(...)`. -/
structure WordP where
  text : String
  x0 : ℚ
  x1 : ℚ
  top : ℚ
  fontname : String
  size : ℚ
deriving DecidableEq, Repr

/-- A page as seen by `predict_structure`: geometry, words and the text
returned by `page.extract_text(x_tolerance=2)` (empty when falsy). -/
structure PageP where
  width : ℚ
  height : ℚ
  words : List WordP
  extractText : String
deriving DecidableEq, Repr

/-- Input to `predict_structure`: any exception in the processing block
is caught, so an unopenable file is one input shape. -/
inductive PdfPInput where
  | openError (msg : String)
  | doc (pages : List PageP)

/-- The feature row handed to the classifier, one field per column of
`feature_dict` (inference.py lines 97-103). -/
structure FeatureVec where
  font_size : ℚ
  is_bold : Bool
  word_count : Nat
  size_diff_from_prev : ℚ
  starts_with_pattern : Bool
  y_position : ℚ
  is_centered : Bool
  text_case_title : Nat
  text_case_upper : Nat
deriving DecidableEq, Repr

/-- `previous_line_style`. -/
structure PrevStyle where
  size : ℚ
  fontname : String
deriving DecidableEq, Repr

/-- An outline entry of the statistical variant (0-based page). -/
structure EntryP where
  level : String
  text : String
  page : Nat
deriving DecidableEq, Repr

/-- Loop state: accumulated title fragments, outline, previous line
style. -/
structure PredState where
  titleParts : List String
  outline : List EntryP
  prev : PrevStyle
deriving DecidableEq, Repr

/-- The result of `predict_structure`. -/
structure ResultP where
  title : String
  outline : List EntryP
deriving DecidableEq, Repr

/-- The prediction dispatch (inference.py lines 110-116): a `Title` on
page 0 in the top half becomes a title fragment; `H1`, `H2` and `H3`
become outline entries; every other prediction — including a `Title`
in the bottom half or on a later page — is dropped. -/
def handlePrediction (label : String) (pageNum : Nat) (yPos : ℚ) (lineText : String)
    (titleParts : List String) (outline : List EntryP) : List String × List EntryP :=
  if label == "Title" && pageNum == 0 && decide (yPos < mkRat 1 2) then
    (titleParts ++ [lineText], outline)
  else if label == "H1" || label == "H2" || label == "H3" then
    (titleParts, outline ++ [⟨label, lineText, pageNum⟩])
  else (titleParts, outline)

/-- The ascending sorted list of distinct rounded tops,
`sorted(lines.keys())`. -/
def lineKeys (ws : List WordP) : List ℤ :=
  List.insertionSort (fun a b : ℤ => a ≤ b) (ws.map (fun w => C1a.roundHalfEven w.top)).dedup

/-- The words grouped under one key, sorted stably by `x0`
(`sorted(lines[top], key=lambda w: w['x0'])`). -/
def wordsAtKey (ws : List WordP) (k : ℤ) : List WordP :=
  List.insertionSort (fun a b : WordP => a.x0 ≤ b.x0)
    (ws.filter (fun w => C1a.roundHalfEven w.top = k))

/-- Processing of one visual line (inference.py lines 71-118): join and
strip the text, skip blank lines, build the feature row, ask the
classifier, dispatch the prediction, and update the previous style. -/
def processLine (classify : FeatureVec → String) (page : PageP) (pageNum : Nat)
    (st : PredState) (k : ℤ) : PredState :=
  let lw := wordsAtKey page.words k
  match lw with
  | [] => st
  | first :: _ =>
    let lt := Py.pyStrip (Py.pyJoin " " (lw.map WordP.text))
    if lt = "" then st
    else
      let lastW := lw.getLastD first
      let yPos := Py.fdiv (k : ℚ) page.height
      let fv : FeatureVec :=
        { font_size := first.size
          is_bold := Py.containsSub "bold" (Py.pyLower first.fontname)
          word_count := lw.length
          size_diff_from_prev := first.size - st.prev.size
          starts_with_pattern := is_potential_heading lt
          y_position := yPos
          is_centered := decide (|first.x0 - (page.width - lastW.x1)| < mkRat 25 100 * page.width)
          text_case_title := if get_text_case lt = "title" then 1 else 0
          text_case_upper := if get_text_case lt = "upper" then 1 else 0 }
      let handled := handlePrediction (classify fv) pageNum yPos lt st.titleParts st.outline
      ⟨handled.1, handled.2, ⟨first.size, first.fontname⟩⟩

/-- Per-page loop: pages with no words are skipped. -/
def processPage (classify : FeatureVec → String) (st : PredState) (pageNum : Nat)
    (page : PageP) : PredState :=
  if page.words.isEmpty then st
  else (lineKeys page.words).foldl (processLine classify page pageNum) st

/-- `predict_structure` (inference.py lines 41-125): any exception gives
the empty result, a document with no extractable text gives the empty
result, otherwise the line loop runs over all pages and the title is the
space-join of the collected fragments. -/
def predict_structure (classify : FeatureVec → String) : PdfPInput → ResultP
  | .openError _ => ⟨"", []⟩
  | .doc pages =>
    if pages.all (fun p => p.extractText = "") then ⟨"", []⟩
    else
      let final := pages.enum.foldl
        (fun st ip => processPage classify st ip.1 ip.2) ⟨[], [], ⟨0, ""⟩⟩
      ⟨Py.pyJoin " " final.titleParts, final.outline⟩

end WebApp

namespace C1b

instance : Inhabited Sec := ⟨⟨"", "", 0, ""⟩⟩

/-- The response shapes that the parsing contract of
`call_llm_for_ranking` rejects: transport failure, JSON decode failure,
a non-list JSON value, or a list containing an element that fails the
`isinstance(_, int)` check (booleans pass it). -/
def malformedResponse : LLMResponse → Bool
  | .transportError => true
  | .decodeError => true
  | .ok (.jarr xs) => !(mapOpt pyIntOfJson xs).isSome
  | .ok _ => true

theorem call_llm_of_malformed (r : LLMResponse) (h : malformedResponse r = true) :
    call_llm_for_ranking r = [] := by
  cases r with
  | transportError => rfl
  | decodeError => rfl
  | ok j =>
    cases j with
    | jarr xs =>
      have : mapOpt pyIntOfJson xs = none := by
        cases hm : mapOpt pyIntOfJson xs with
        | none => rfl
        | some v => simp [malformedResponse, hm] at h
      simp [call_llm_for_ranking, this]
    | jnull => rfl
    | jbool b => rfl
    | jnum n => rfl
    | jfloat q => rfl
    | jstr s => rfl
    | jobj o => rfl

/-- Concrete sections for the closed instances: neither heading is
blacklisted and the two records differ. -/
def secAlpha : Sec := ⟨"Alpha", "alpha body", 1, "doc1"⟩

def secBeta : Sec := ⟨"Beta", "beta body", 2, "doc1"⟩

def cexScored : List (Sec × ℚ) := [(secAlpha, 1), (secBeta, 0)]

end C1b

/-- C6. The semantic stage removes sections whose stripped lowercased
heading lies in the blacklist and keeps the top 20 of the rest; exactly
when that filtering leaves zero candidates, the filter is dropped and
the top 20 of the unfiltered ranked list is used instead; in both cases
at most 20 candidates result. -/
theorem c6_blacklist_filter_truncation (ranked : List C1b.Sec) :
    C1b.highValueCandidates ranked =
      (if ranked.filter C1b.keepSec = [] then ranked.take 20
       else (ranked.filter C1b.keepSec).take 20)
    ∧ (C1b.highValueCandidates ranked).length ≤ 20 := by
  have hcore : C1b.highValueCandidates ranked =
      (if ranked.filter C1b.keepSec = [] then ranked.take 20
       else (ranked.filter C1b.keepSec).take 20) := by
    unfold C1b.highValueCandidates
    by_cases h : ranked.filter C1b.keepSec = []
    · rw [if_pos h, h]
      rfl
    · rw [if_neg h]
      obtain ⟨x, xs, hxx⟩ := List.exists_cons_of_ne_nil h
      rw [hxx]
      rfl
  refine ⟨hcore, ?_⟩
  rw [hcore]
  by_cases h : ranked.filter C1b.keepSec = []
  · rw [if_pos h]
    exact List.length_take_le 20 ranked
  · rw [if_neg h]
    exact List.length_take_le 20 (ranked.filter C1b.keepSec)

/-- C10. A well-formed empty JSON list from the LLM yields the empty
index list, which takes the same fallback branch as a transport error:
the result is indistinguishable from an LLM failure and equals the
semantic (filtered, truncated) order. -/
theorem c10_empty_list_indistinguishable (scored : List (C1b.Sec × ℚ)) :
    C1b.call_llm_for_ranking (.ok (.jarr [])) = []
    ∧ C1b.run_hybrid_analysis scored (.ok (.jarr []))
        = C1b.run_hybrid_analysis scored .transportError
    ∧ C1b.run_hybrid_analysis scored (.ok (.jarr []))
        = some (C1b.highValueCandidates (C1b.semanticRank scored)) := by
  exact ⟨rfl, rfl, rfl⟩

/-- C2 (amended). Every LLM response that is a transport error, fails
to decode as JSON, is JSON but not a list, or is a list containing an
element failing the Python `isinstance(_, int)` check (under which
booleans count as integers), produces the semantic order exactly and is
absorbed rather than surfaced. -/
theorem c2_malformed_response_fallback (scored : List (C1b.Sec × ℚ)) (resp : C1b.LLMResponse)
    (h : C1b.malformedResponse resp = true) :
    C1b.run_hybrid_analysis scored resp
      = some (C1b.highValueCandidates (C1b.semanticRank scored)) := by
  unfold C1b.run_hybrid_analysis
  rw [C1b.call_llm_of_malformed resp h]
  rfl

/-- C2 witness: the amended theorem applied to a decode failure over a
concrete scored pool. -/
theorem c2_malformed_response_fallback_witness :
    C1b.run_hybrid_analysis C1b.cexScored .decodeError
      = some (C1b.highValueCandidates (C1b.semanticRank C1b.cexScored)) :=
  c2_malformed_response_fallback C1b.cexScored .decodeError rfl

/-- C2 counterexample to the claim as stated: the response `[true]` is
JSON but not a list of integers, yet the code does not fall back —
Python `isinstance(True, int)` holds and `True` indexes element 1, so
the final order differs from the semantic order. -/
theorem c2_bool_list_counterexample :
    C1b.run_hybrid_analysis C1b.cexScored (.ok (.jarr [.jbool true]))
      = some [C1b.secBeta, C1b.secAlpha]
    ∧ [C1b.secBeta, C1b.secAlpha]
        ≠ C1b.highValueCandidates (C1b.semanticRank C1b.cexScored) := by
  exact ⟨by decide, by decide⟩

namespace C1b

theorem pyGet_of_nonneg (xs : List Sec) (i : Int) (h0 : 0 ≤ i) (hl : i < (xs.length : Int)) :
    pyGet xs i = some (xs.getD i.toNat default) := by
  have hn : i.toNat < xs.length := by omega
  unfold pyGet
  rw [if_pos h0]
  simp [List.get?_eq_getElem?, List.getElem?_eq_getElem hn, List.getD_eq_getElem?_getD]

/-- The list built by `[high_value_candidates[i] for i in ranked_indices
if i < len(high_value_candidates)]` when every index is in range. -/
def referencedCands (cands : List Sec) (idxs : List Int) : List Sec :=
  idxs.map (fun i => cands.getD i.toNat default)

theorem mapOpt_pyGet_in_range (cands : List Sec) (idxs : List Int)
    (h : ∀ i ∈ idxs, 0 ≤ i ∧ i < (cands.length : Int)) :
    mapOpt (pyGet cands) idxs = some (referencedCands cands idxs) := by
  induction idxs with
  | nil => rfl
  | cons i rest ih =>
    have h1 := h i (List.mem_cons_self i rest)
    have hr := ih (fun j hj => h j (List.mem_cons_of_mem i hj))
    simp only [mapOpt, pyGet_of_nonneg cands i h1.1 h1.2, hr, referencedCands, List.map_cons]

theorem getD_eq_getElem_of_lt (cands : List Sec) (n : Nat) (hn : n < cands.length) :
    cands.getD n default = cands[n] := by
  simp [List.getD_eq_getElem?_getD, List.getElem?_eq_getElem hn]

theorem referencedCands_subset (cands : List Sec) (idxs : List Int)
    (h : ∀ i ∈ idxs, 0 ≤ i ∧ i < (cands.length : Int)) :
    ∀ x ∈ referencedCands cands idxs, x ∈ cands := by
  intro x hx
  obtain ⟨i, hi, hgi⟩ := List.mem_map.mp hx
  have h1 := h i hi
  have hn : i.toNat < cands.length := by omega
  rw [← hgi, getD_eq_getElem_of_lt cands i.toNat hn]
  exact List.getElem_mem hn

theorem referencedCands_nodup (cands : List Sec) (idxs : List Int)
    (h : ∀ i ∈ idxs, 0 ≤ i ∧ i < (cands.length : Int)) (hnd : idxs.Nodup)
    (hc : cands.Nodup) : (referencedCands cands idxs).Nodup := by
  apply List.Nodup.map_on _ hnd
  intro x hx y hy hxy
  have h1 := h x hx
  have h2 := h y hy
  have hnx : x.toNat < cands.length := by omega
  have hny : y.toNat < cands.length := by omega
  rw [getD_eq_getElem_of_lt cands x.toNat hnx, getD_eq_getElem_of_lt cands y.toNat hny] at hxy
  have := (@List.Nodup.getElem_inj_iff _ cands hc x.toNat hnx y.toNat hny).mp hxy
  omega

theorem rerank_perm (cands : List Sec) (first : List Sec)
    (hsub : ∀ x ∈ first, x ∈ cands) (hnd : first.Nodup) (hc : cands.Nodup) :
    List.Perm (first ++ cands.filter (fun s => ! first.contains s)) cands := by
  have h1 : List.Perm first (cands.filter (fun s => first.contains s)) := by
    apply List.Subperm.antisymm
    · apply List.subperm_of_subset hnd
      intro x hx
      exact List.mem_filter.mpr ⟨hsub x hx, List.elem_eq_true_of_mem hx⟩
    · apply List.subperm_of_subset (hc.filter _)
      intro x hx
      exact List.mem_of_elem_eq_true (List.mem_filter.mp hx).2
  exact (h1.append_right _).trans (List.filter_append_perm (fun s => first.contains s) cands)

end C1b

/-- C1 (amended). For a candidate list of length N, an LLM response
parsing as a JSON list of pairwise distinct integers in the range
[0, N), and pairwise distinct candidates, the final ordering of
`run_hybrid_analysis` is exactly the candidates at the returned indices
followed by the unreferenced candidates in their original relative
order, and it is a permutation of all N candidates. -/
theorem c1_wellformed_rerank_permutation (scored : List (C1b.Sec × ℚ)) (js : List C1b.Json)
    (idxs : List Int)
    (hparse : C1b.mapOpt C1b.pyIntOfJson js = some idxs)
    (hrange : ∀ i ∈ idxs,
      0 ≤ i ∧ i < ((C1b.highValueCandidates (C1b.semanticRank scored)).length : Int))
    (hnodup : idxs.Nodup)
    (hcands : (C1b.highValueCandidates (C1b.semanticRank scored)).Nodup) :
    C1b.run_hybrid_analysis scored (.ok (.jarr js))
      = some (C1b.referencedCands (C1b.highValueCandidates (C1b.semanticRank scored)) idxs
          ++ (C1b.highValueCandidates (C1b.semanticRank scored)).filter
            (fun s =>
              ! (C1b.referencedCands (C1b.highValueCandidates (C1b.semanticRank scored))
                  idxs).contains s))
    ∧ List.Perm
        (C1b.referencedCands (C1b.highValueCandidates (C1b.semanticRank scored)) idxs
          ++ (C1b.highValueCandidates (C1b.semanticRank scored)).filter
            (fun s =>
              ! (C1b.referencedCands (C1b.highValueCandidates (C1b.semanticRank scored))
                  idxs).contains s))
        (C1b.highValueCandidates (C1b.semanticRank scored)) := by
  have hsub := C1b.referencedCands_subset _ idxs hrange
  have hnd := C1b.referencedCands_nodup _ idxs hrange hnodup hcands
  have hperm := C1b.rerank_perm (C1b.highValueCandidates (C1b.semanticRank scored))
    (C1b.referencedCands (C1b.highValueCandidates (C1b.semanticRank scored)) idxs)
    hsub hnd hcands
  refine ⟨?_, hperm⟩
  have hcall : C1b.call_llm_for_ranking (.ok (.jarr js)) = idxs := by
    simp [C1b.call_llm_for_ranking, hparse]
  simp only [C1b.run_hybrid_analysis, hcall]
  cases idxs with
  | nil =>
    simp only [List.isEmpty_nil, if_true]
    have : (C1b.highValueCandidates (C1b.semanticRank scored)).filter
        (fun s => ! (C1b.referencedCands (C1b.highValueCandidates (C1b.semanticRank scored))
          []).contains s) = C1b.highValueCandidates (C1b.semanticRank scored) :=
      List.filter_eq_self.mpr (fun a _ => rfl)
    rw [this]
    rfl
  | cons i rest =>
    simp only [List.isEmpty_cons, if_false, Bool.false_eq_true]
    unfold C1b.rerankWithIndices
    have hfull : (i :: rest).filter
        (fun j => decide (j < ((C1b.highValueCandidates (C1b.semanticRank scored)).length : Int)))
          = i :: rest :=
      List.filter_eq_self.mpr (fun a ha => by simpa using (hrange a ha).2)
    rw [hfull, C1b.mapOpt_pyGet_in_range _ (i :: rest) hrange]

/-- C1 witness: the amended theorem applied to the index list [1, 0]
over two distinct candidates. -/
theorem c1_wellformed_rerank_permutation_witness :
    C1b.run_hybrid_analysis C1b.cexScored (.ok (.jarr [.jnum 1, .jnum 0]))
      = some (C1b.referencedCands (C1b.highValueCandidates (C1b.semanticRank C1b.cexScored)) [1, 0]
          ++ (C1b.highValueCandidates (C1b.semanticRank C1b.cexScored)).filter
            (fun s =>
              ! (C1b.referencedCands (C1b.highValueCandidates (C1b.semanticRank C1b.cexScored))
                  [1, 0]).contains s))
    ∧ List.Perm
        (C1b.referencedCands (C1b.highValueCandidates (C1b.semanticRank C1b.cexScored)) [1, 0]
          ++ (C1b.highValueCandidates (C1b.semanticRank C1b.cexScored)).filter
            (fun s =>
              ! (C1b.referencedCands (C1b.highValueCandidates (C1b.semanticRank C1b.cexScored))
                  [1, 0]).contains s))
        (C1b.highValueCandidates (C1b.semanticRank C1b.cexScored)) :=
  c1_wellformed_rerank_permutation C1b.cexScored [.jnum 1, .jnum 0] [1, 0]
    rfl (by decide) (by decide) (by decide)

/-- C1 counterexample to the claim as stated: the returned list [0, 0]
consists of integers in [0, N) for N = 2, yet candidate 0 appears twice
and the result has length 3, so the final ordering is not a permutation
of the candidates. -/
theorem c1_duplicate_indices_counterexample :
    C1b.run_hybrid_analysis C1b.cexScored (.ok (.jarr [.jnum 0, .jnum 0]))
      = some [C1b.secAlpha, C1b.secAlpha, C1b.secBeta]
    ∧ ¬ List.Perm [C1b.secAlpha, C1b.secAlpha, C1b.secBeta]
        (C1b.highValueCandidates (C1b.semanticRank C1b.cexScored)) :=
  ⟨by decide, fun h => absurd h.length_eq (by decide)⟩

namespace C1a

/-- Running maximum of span sizes from a seed: the value that
`max_font_size` holds after scanning a span list. -/
def foldMaxSize (m0 : ℚ) (ss : List SpanA) : ℚ :=
  ss.foldl (fun m s => max m s.size) m0

theorem foldMaxSize_cons (m0 : ℚ) (s : SpanA) (ss : List SpanA) :
    foldMaxSize m0 (s :: ss) = foldMaxSize (max m0 s.size) ss := rfl

theorem le_foldMaxSize (m0 : ℚ) (ss : List SpanA) : m0 ≤ foldMaxSize m0 ss := by
  induction ss generalizing m0 with
  | nil => exact le_refl m0
  | cons s ss ih => exact le_trans (le_max_left m0 s.size) (ih (max m0 s.size))

theorem size_le_foldMaxSize (m0 : ℚ) (ss : List SpanA) :
    ∀ s ∈ ss, s.size ≤ foldMaxSize m0 ss := by
  induction ss generalizing m0 with
  | nil => intro s hs; cases hs
  | cons t ss ih =>
    intro s hs
    rcases List.mem_cons.mp hs with h | h
    · subst h
      exact le_trans (le_max_right m0 s.size) (le_foldMaxSize (max m0 s.size) ss)
    · exact ih (max m0 t.size) s h

theorem spanFold_no_update (ss : List SpanA) (t0 : String) (m0 : ℚ)
    (h : foldMaxSize m0 ss ≤ m0) : (ss.foldl spanStep (t0, m0)).1 = t0 := by
  induction ss generalizing t0 m0 with
  | nil => rfl
  | cons s ss ih =>
    have hs : s.size ≤ m0 :=
      le_trans (size_le_foldMaxSize m0 (s :: ss) s (List.mem_cons_self s ss)) h
    have hnot : ¬ m0 < s.size := not_lt.mpr hs
    have hmax : max m0 s.size = m0 := max_eq_left hs
    rw [List.foldl_cons]
    show ((ss.foldl spanStep (spanStep (t0, m0) s))).1 = t0
    rw [show spanStep (t0, m0) s = (t0, m0) from by simp [spanStep, if_neg hnot]]
    apply ih
    rw [foldMaxSize_cons, hmax] at h
    exact h

theorem spanFold_first_max :
    ∀ (ss : List SpanA) (t0 : String) (m0 : ℚ), m0 < foldMaxSize m0 ss →
    ∃ sf, ss.find? (fun x => decide (x.size = foldMaxSize m0 ss)) = some sf
      ∧ (ss.foldl spanStep (t0, m0)).1 = Py.pyStrip sf.text
  | [], _, m0, h => absurd h (lt_irrefl m0)
  | s :: ss, t0, m0, h => by
    by_cases hs : s.size = foldMaxSize m0 (s :: ss)
    · refine ⟨s, ?_, ?_⟩
      · rw [List.find?_cons]
        simp [hs]
      · have hlt : m0 < s.size := by rw [hs]; exact h
        rw [List.foldl_cons]
        rw [show spanStep (t0, m0) s = (Py.pyStrip s.text, s.size) from by
          simp [spanStep, if_pos hlt]]
        apply spanFold_no_update
        have hmax : max m0 s.size = s.size := max_eq_right (le_of_lt hlt)
        rw [foldMaxSize_cons, hmax] at hs
        rw [← hs]
    · have hsle : s.size ≤ foldMaxSize m0 (s :: ss) :=
        size_le_foldMaxSize m0 (s :: ss) s (List.mem_cons_self s ss)
      have hslt : s.size < foldMaxSize m0 (s :: ss) := lt_of_le_of_ne hsle hs
      have hm' : max m0 s.size < foldMaxSize (max m0 s.size) ss := by
        rw [← foldMaxSize_cons]
        exact max_lt h hslt
      rw [foldMaxSize_cons] at hs ⊢
      by_cases hup : m0 < s.size
      · have hmax : max m0 s.size = s.size := max_eq_right (le_of_lt hup)
        rw [hmax] at hs hm' ⊢
        obtain ⟨sf, hfind, hfold⟩ := spanFold_first_max ss (Py.pyStrip s.text) s.size hm'
        refine ⟨sf, ?_, ?_⟩
        · rw [List.find?_cons_of_neg _ (by simpa using hs)]
          exact hfind
        · rw [List.foldl_cons]
          rw [show spanStep (t0, m0) s = (Py.pyStrip s.text, s.size) from by
            simp [spanStep, if_pos hup]]
          exact hfold
      · have hmax : max m0 s.size = m0 := max_eq_left (not_lt.mp hup)
        rw [hmax] at hs hm' ⊢
        obtain ⟨sf, hfind, hfold⟩ := spanFold_first_max ss t0 m0 hm'
        refine ⟨sf, ?_, ?_⟩
        · rw [List.find?_cons_of_neg _ (by simpa using hs)]
          exact hfind
        · rw [List.foldl_cons]
          rw [show spanStep (t0, m0) s = (t0, m0) from by simp [spanStep, if_neg hup]]
          exact hfold

theorem titlePass_eq_foldIncluded (page : PageA) :
    titlePass page = ((includedSpans page).foldl spanStep ("", 0)).1 := by
  unfold titlePass includedSpans
  suffices h : ∀ (bs : List BlockA) (acc : String × ℚ),
      bs.foldl
        (fun acc b =>
          if b.y0 < page.height * mkRat 85 100 then (b.lines.flatMap LineA.spans).foldl spanStep acc
          else acc) acc
        = ((bs.filter (fun b => b.y0 < page.height * mkRat 85 100)).flatMap
            (fun b => b.lines.flatMap LineA.spans)).foldl spanStep acc by
    rw [h]
  intro bs
  induction bs with
  | nil => intro acc; rfl
  | cons b bs ih =>
    intro acc
    by_cases hb : b.y0 < page.height * mkRat 85 100
    · rw [List.foldl_cons, if_pos hb, ih,
        List.filter_cons_of_pos (by exact decide_eq_true hb),
        List.flatMap_cons, List.foldl_append]
    · rw [List.foldl_cons, if_neg hb, ih,
        List.filter_cons_of_neg (by simpa using hb)]

/-- The maximum font size among spans of blocks above the footer
margin (0 when there is none). -/
def maxIncludedSize (page : PageA) : ℚ := foldMaxSize 0 (includedSpans page)

/-- First page whose two title spans tie at the maximum size. -/
def cexTiePage : PageA :=
  ⟨100, [⟨0, [⟨[⟨"First", 20⟩, ⟨"Second", 20⟩]⟩]⟩], false⟩

end C1a

/-- C5 (amended). On the first page the returned title is the stripped
text of the span with the globally maximum font size among blocks whose
top lies above 85 percent of page height, provided some such span has
positive size; when two or more spans tie for the maximum, the first
one in iteration order wins. -/
theorem c5_title_first_max_span (page : C1a.PageA) (h : 0 < C1a.maxIncludedSize page) :
    ∃ s, (C1a.includedSpans page).find?
        (fun x => decide (x.size = C1a.maxIncludedSize page)) = some s
      ∧ C1a.titlePass page = Py.pyStrip s.text := by
  rw [C1a.titlePass_eq_foldIncluded]
  exact C1a.spanFold_first_max (C1a.includedSpans page) "" 0 h

/-- C5 witness: the amended theorem applied to the tie page. -/
theorem c5_title_first_max_span_witness :
    ∃ s, (C1a.includedSpans C1a.cexTiePage).find?
        (fun x => decide (x.size = C1a.maxIncludedSize C1a.cexTiePage)) = some s
      ∧ C1a.titlePass C1a.cexTiePage = Py.pyStrip s.text :=
  c5_title_first_max_span C1a.cexTiePage (by decide)

/-- C5 counterexample to the claim as stated: two spans tie at the
maximum size 20; the last one in iteration order has text "Second", but
the strict comparison in the scan keeps the first one, "First". -/
theorem c5_last_tie_counterexample :
    C1a.titlePass C1a.cexTiePage = "First"
    ∧ (C1a.includedSpans C1a.cexTiePage).getLast? = some ⟨"Second", 20⟩
    ∧ ("First" : String) ≠ "Second" :=
  ⟨by decide, by decide, by decide⟩

namespace WebApp

/-- The concrete first page for the bottom-half title instance: one
word at top 60 on a page of height 100, so the line's y position is
0.6 ≥ 0.5, with extractable text present. -/
def cexTitlePage : PageP := ⟨100, 100, [⟨"Hello", 10, 20, 60, "F", 12⟩], "Hello"⟩

end WebApp

/-- C3 (amended). In the statistical classifier variant, a line
predicted Title whose y position is at least 0.5 is discarded by the
prediction dispatch: it becomes neither a title fragment nor an outline
entry, on the first page or any other. -/
theorem c3_bottom_half_title_discarded (p : Nat) (y : ℚ) (t : String)
    (tp : List String) (ol : List WebApp.EntryP) (h : mkRat 1 2 ≤ y) :
    WebApp.handlePrediction "Title" p y t tp ol = (tp, ol) := by
  unfold WebApp.handlePrediction
  have hy : decide (y < mkRat 1 2) = false := decide_eq_false (not_lt.mpr h)
  simp [hy]

/-- C3 witness: the amended theorem applied to a line at y = 0.6 on
page 0. -/
theorem c3_bottom_half_title_discarded_witness :
    WebApp.handlePrediction "Title" 0 (mkRat 3 5) "Hello" [] [] = ([], []) :=
  c3_bottom_half_title_discarded 0 (mkRat 3 5) "Hello" [] [] (by decide)

/-- C3 counterexample to the claim as stated: with a classifier that
predicts Title for the single first-page line at y position 0.6, the
code emits no H1 outline entry (and no title); the line is dropped
rather than reclassified. -/
theorem c3_no_h1_reclassification_counterexample :
    WebApp.predict_structure (fun _ => "Title") (.doc [WebApp.cexTitlePage]) = ⟨"", []⟩
    ∧ (⟨"H1", "Hello", 0⟩ : WebApp.EntryP)
        ∉ (WebApp.predict_structure (fun _ => "Title") (.doc [WebApp.cexTitlePage])).outline :=
  ⟨by decide, by decide⟩

namespace C1a

theorem snd_mem_of_mem_enum {α : Type} {l : List α} {x : Nat × α} (h : x ∈ l.enum) : x.2 ∈ l :=
  List.get?_mem (List.mem_enum_iff_get?.mp h)

theorem titlePass_no_spans (page : PageA)
    (h : ∀ b ∈ page.blocks, ∀ l ∈ b.lines, l.spans = []) : titlePass page = "" := by
  unfold titlePass
  suffices hf : ∀ (bs : List BlockA) (acc : String × ℚ),
      (∀ b ∈ bs, ∀ l ∈ b.lines, l.spans = []) →
      bs.foldl
        (fun acc b =>
          if b.y0 < page.height * mkRat 85 100 then (b.lines.flatMap LineA.spans).foldl spanStep acc
          else acc) acc = acc by
    rw [hf page.blocks ("", 0) h]
  intro bs
  induction bs with
  | nil => intro acc _; rfl
  | cons b bs ih =>
    intro acc hb
    have hspans : b.lines.flatMap LineA.spans = [] := by
      rw [List.flatMap_eq_nil_iff]
      exact fun l hl => hb b (List.mem_cons_self b bs) l hl
    rw [List.foldl_cons]
    have hstep : (if b.y0 < page.height * mkRat 85 100 then
        (b.lines.flatMap LineA.spans).foldl spanStep acc else acc) = acc := by
      rw [hspans]
      split <;> rfl
    rw [hstep]
    exact ih acc (fun c hc l hl => hb c (List.mem_cons_of_mem b hc) l hl)

theorem introPass_no_spans (pages : List PageA)
    (h : ∀ p ∈ pages, ∀ b ∈ p.blocks, ∀ l ∈ b.lines, l.spans = []) : introPass pages = [] := by
  unfold introPass
  rw [List.flatMap_eq_nil_iff]
  intro ip hip
  rw [List.flatMap_eq_nil_iff]
  intro b hb
  rw [List.filterMap_eq_nil_iff]
  intro l hl
  have hp : ip.2 ∈ pages := List.mem_of_mem_take (snd_mem_of_mem_enum hip)
  have hsp := h ip.2 hp b hb l hl
  simp only [hsp]

theorem mainPass_no_spans (pages : List PageA)
    (h : ∀ p ∈ pages, ∀ b ∈ p.blocks, ∀ l ∈ b.lines, l.spans = []) : mainPass pages = [] := by
  unfold mainPass
  rw [List.flatMap_eq_nil_iff]
  intro ip hip
  rw [List.flatMap_eq_nil_iff]
  intro b hb
  rw [List.filterMap_eq_nil_iff]
  intro il hil
  have hp : ip.2 ∈ pages := snd_mem_of_mem_enum (List.mem_of_mem_filter hip)
  have hl : il.2 ∈ b.lines := snd_mem_of_mem_enum hil
  have hsp := h ip.2 hp b hb il.2 hl
  unfold mainPassLine
  simp only [hsp]

end C1a

/-- C4 (amended). Both classifier variants absorb malformed or empty
input without raising; the statistical variant returns exactly
{title: "", outline: []} for an unopenable file and for a document
without extractable text (including zero pages), while the rule engine
returns the diagnostic titles "Error opening PDF: ..." for an
unopenable file and "Empty or invalid PDF" for a zero-page document
(each with an empty outline) and returns {title: "", outline: []} for
a nonempty document whose pages carry no text spans. -/
theorem c4_soft_failure_results :
    (∀ (c : WebApp.FeatureVec → String) (e : String),
        WebApp.predict_structure c (.openError e) = ⟨"", []⟩)
    ∧ (∀ (c : WebApp.FeatureVec → String) (pages : List WebApp.PageP),
        pages.all (fun p => p.extractText = "") = true →
        WebApp.predict_structure c (.doc pages) = ⟨"", []⟩)
    ∧ (∀ e : String, C1a.extract_outline (.openError e) = ⟨"Error opening PDF: " ++ e, []⟩)
    ∧ C1a.extract_outline (.doc []) = ⟨"Empty or invalid PDF", []⟩
    ∧ (∀ (p0 : C1a.PageA) (rest : List C1a.PageA),
        (∀ p ∈ p0 :: rest, ∀ b ∈ p.blocks, ∀ l ∈ b.lines, l.spans = []) →
        C1a.extract_outline (.doc (p0 :: rest)) = ⟨"", []⟩) := by
  refine ⟨fun c e => rfl, ?_, fun e => rfl, rfl, ?_⟩
  · intro c pages h
    rw [WebApp.predict_structure]
    rw [if_pos h]
  · intro p0 rest h
    show (⟨C1a.titlePass p0,
      C1a.assembleOutline (C1a.introPass (p0 :: rest))
        (C1a.assignLevels (C1a.mainPass (p0 :: rest)))⟩ : C1a.OutlineResult) = ⟨"", []⟩
    rw [C1a.titlePass_no_spans p0 (h p0 (List.mem_cons_self p0 rest)),
      C1a.introPass_no_spans (p0 :: rest) h, C1a.mainPass_no_spans (p0 :: rest) h]
    rfl

/-- C4 witness: the amended theorem applied to an unopenable file, a
no-text page, and a one-page document whose only line has no spans. -/
theorem c4_soft_failure_results_witness :
    WebApp.predict_structure (fun _ => "paragraph") (.openError "boom") = ⟨"", []⟩
    ∧ WebApp.predict_structure (fun _ => "paragraph") (.doc [⟨10, 10, [], ""⟩]) = ⟨"", []⟩
    ∧ C1a.extract_outline (.doc [⟨100, [⟨0, [⟨[]⟩]⟩], false⟩]) = ⟨"", []⟩ :=
  ⟨c4_soft_failure_results.1 (fun _ => "paragraph") "boom",
   c4_soft_failure_results.2.1 (fun _ => "paragraph") [⟨10, 10, [], ""⟩] (by decide),
   c4_soft_failure_results.2.2.2.2 ⟨100, [⟨0, [⟨[]⟩]⟩], false⟩ [] (by decide)⟩

/-- C4 counterexample to the claim as stated: a zero-page document
makes the rule engine return the title "Empty or invalid PDF", not the
empty string. -/
theorem c4_diagnostic_title_counterexample :
    C1a.extract_outline (.doc []) = ⟨"Empty or invalid PDF", []⟩
    ∧ ("Empty or invalid PDF" : String) ≠ "" :=
  ⟨rfl, by decide⟩

namespace Py

theorem length_le_pyJoin_foldl (sep : String) :
    ∀ (rest : List String) (acc : String),
    acc.length ≤ (rest.foldl (fun r x => r ++ sep ++ x) acc).length
  | [], _ => le_refl _
  | x :: rest, acc => by
    have h1 : acc.length ≤ (acc ++ sep ++ x).length := by
      rw [String.length_append, String.length_append]
      omega
    exact le_trans h1 (length_le_pyJoin_foldl sep rest (acc ++ sep ++ x))

theorem length_pos_of_ne_empty (t : String) (h : t ≠ "") : 0 < t.length := by
  cases t with
  | mk d =>
    cases d with
    | nil => exact absurd rfl h
    | cons c cs => simp [String.length]

theorem pyJoin_ne_empty (sep : String) (ts : List String) (hne : ts ≠ [])
    (h : ∀ t ∈ ts, t ≠ "") : pyJoin sep ts ≠ "" := by
  match ts with
  | [] => exact absurd rfl hne
  | t :: rest =>
    have ht : t ≠ "" := h t (List.mem_cons_self t rest)
    have hpos : 0 < t.length := length_pos_of_ne_empty t ht
    have hlen : 0 < (pyJoin sep (t :: rest)).length :=
      lt_of_lt_of_le hpos (length_le_pyJoin_foldl sep rest t)
    intro hcontra
    rw [hcontra] at hlen
    exact absurd hlen (by decide)

end Py

namespace C1b

/-- The heading-branch shape of one block step. -/
theorem processBlock_heading_eq (median : ℚ) (p : Nat) (st : SegState) (b : Block1b)
    (ht : blockText b ≠ "") (hh : is_heading b median = true) :
    processBlock median p st b =
      ⟨blockText b, [],
        if st.currentHeading != "" && !st.currentContent.isEmpty then
          st.sections ++ [⟨st.currentHeading, Py.pyJoin " " st.currentContent, p⟩]
        else st.sections⟩ := by
  unfold processBlock
  rw [if_neg ht, if_pos hh]

theorem processBlock_invariant (median : ℚ) (p : Nat) (st : SegState) (b : Block1b)
    (h1 : ∀ t ∈ st.currentContent, t ≠ "") (h2 : ∀ s ∈ st.sections, s.content ≠ "") :
    (∀ t ∈ (processBlock median p st b).currentContent, t ≠ "")
    ∧ (∀ s ∈ (processBlock median p st b).sections, s.content ≠ "") := by
  unfold processBlock
  by_cases htext : blockText b = ""
  · rw [if_pos htext]
    exact ⟨h1, h2⟩
  · rw [if_neg htext]
    by_cases hh : is_heading b median = true
    · rw [if_pos hh]
      refine ⟨fun t ht => absurd ht (List.not_mem_nil t), ?_⟩
      intro s hs
      by_cases hc : (st.currentHeading != "" && !st.currentContent.isEmpty) = true
      · rw [if_pos hc] at hs
        rcases List.mem_append.mp hs with hold | hnew
        · exact h2 s hold
        · have hcc : st.currentContent ≠ [] := by
            intro hnil
            rw [hnil] at hc
            simp at hc
          have : s = ⟨st.currentHeading, Py.pyJoin " " st.currentContent, p⟩ :=
            List.mem_singleton.mp hnew
          rw [this]
          exact Py.pyJoin_ne_empty " " st.currentContent hcc h1
      · rw [if_neg hc] at hs
        exact h2 s hs
    · rw [if_neg hh]
      refine ⟨?_, h2⟩
      intro t ht
      rcases List.mem_append.mp ht with hold | hnew
      · exact h1 t hold
      · rw [List.mem_singleton.mp hnew]
        exact htext

theorem foldl_blocks_invariant (median : ℚ) (p : Nat) :
    ∀ (bs : List Block1b) (st : SegState),
    (∀ t ∈ st.currentContent, t ≠ "") → (∀ s ∈ st.sections, s.content ≠ "") →
    (∀ t ∈ (bs.foldl (processBlock median p) st).currentContent, t ≠ "")
    ∧ (∀ s ∈ (bs.foldl (processBlock median p) st).sections, s.content ≠ "")
  | [], st, h1, h2 => ⟨h1, h2⟩
  | b :: bs, st, h1, h2 => by
    obtain ⟨h1', h2'⟩ := processBlock_invariant median p st b h1 h2
    exact foldl_blocks_invariant median p bs (processBlock median p st b) h1' h2'

theorem foldl_pages_invariant (median : ℚ) :
    ∀ (ips : List (Nat × List Block1b)) (st : SegState),
    (∀ t ∈ st.currentContent, t ≠ "") → (∀ s ∈ st.sections, s.content ≠ "") →
    (∀ t ∈ (ips.foldl (fun st pb => pb.2.foldl (processBlock median pb.1) st)
        st).currentContent, t ≠ "")
    ∧ (∀ s ∈ (ips.foldl (fun st pb => pb.2.foldl (processBlock median pb.1) st)
        st).sections, s.content ≠ "")
  | [], st, h1, h2 => ⟨h1, h2⟩
  | ip :: ips, st, h1, h2 => by
    obtain ⟨h1', h2'⟩ := foldl_blocks_invariant median ip.1 ip.2 st h1 h2
    exact foldl_pages_invariant median ips _ h1' h2'

/-- The heading-to-heading page for the closed instance: the second
block is seen while no content is accumulated, so nothing is emitted
for the first heading. -/
def cexSegPages : List (List Block1b) :=
  [[⟨[⟨[⟨"Head", 20, 0⟩]⟩]⟩, ⟨[⟨[⟨"body text", 10, 0⟩]⟩]⟩]]

end C1b

/-- C9. A section is appended to the output of the segmenter only when
it has accumulated non-empty content: every emitted section has a
non-empty content string, and a heading block processed immediately
after another heading block (with no intervening body text) emits no
section for the first heading — the sections list is unchanged by the
second heading step. -/
theorem c9_section_flush_invariant :
    (∀ (pages : List (List C1b.Block1b)) (s : C1b.SecB),
        s ∈ C1b.extract_document_structure pages → s.content ≠ "")
    ∧ (∀ (median : ℚ) (p q : Nat) (st : C1b.SegState) (b1 b2 : C1b.Block1b),
        C1b.blockText b1 ≠ "" → C1b.is_heading b1 median = true →
        C1b.blockText b2 ≠ "" → C1b.is_heading b2 median = true →
        (C1b.processBlock median q (C1b.processBlock median p st b1) b2).sections
          = (C1b.processBlock median p st b1).sections) := by
  constructor
  · intro pages s hs
    unfold C1b.extract_document_structure at hs
    set median := C1b.calculate_median_font_size pages with hmed
    obtain ⟨h1, h2⟩ := C1b.foldl_pages_invariant median
      ((pages.take C1b.MAX_PAGES_TO_SCAN).enum) ⟨"Introduction", [], []⟩
      (fun t ht => absurd ht (List.not_mem_nil t))
      (fun s hs => absurd hs (List.not_mem_nil s))
    set final := ((pages.take C1b.MAX_PAGES_TO_SCAN).enum).foldl
      (fun st pb => pb.2.foldl (C1b.processBlock median pb.1) st)
      ⟨"Introduction", [], []⟩ with hfin
    by_cases hc : (final.currentHeading != "" && !final.currentContent.isEmpty) = true
    · rw [if_pos hc] at hs
      rcases List.mem_append.mp hs with hold | hnew
      · exact h2 s hold
      · have hcc : final.currentContent ≠ [] := by
          intro hnil
          rw [hnil] at hc
          simp at hc
        rw [List.mem_singleton.mp hnew]
        exact Py.pyJoin_ne_empty " " final.currentContent hcc h1
    · rw [if_neg hc] at hs
      exact h2 s hs
  · intro median p q st b1 b2 ht1 hh1 ht2 hh2
    rw [C1b.processBlock_heading_eq median p st b1 ht1 hh1,
      C1b.processBlock_heading_eq median q _ b2 ht2 hh2]
    simp

/-- C9 witness: part one applied to the emitted section of a concrete
heading-plus-body document, and part two applied to two concrete
heading blocks. -/
theorem c9_section_flush_invariant_witness :
    (⟨"Head", "body text", 0⟩ : C1b.SecB).content ≠ ""
    ∧ (C1b.processBlock 15 0 (C1b.processBlock 15 0 ⟨"Introduction", [], []⟩
          ⟨[⟨[⟨"Head", 20, 0⟩]⟩]⟩) ⟨[⟨[⟨"Also", 20, 0⟩]⟩]⟩).sections
        = (C1b.processBlock 15 0 ⟨"Introduction", [], []⟩ ⟨[⟨[⟨"Head", 20, 0⟩]⟩]⟩).sections :=
  ⟨c9_section_flush_invariant.1 C1b.cexSegPages ⟨"Head", "body text", 0⟩ (by decide),
   c9_section_flush_invariant.2 15 0 0 ⟨"Introduction", [], []⟩ ⟨[⟨[⟨"Head", 20, 0⟩]⟩]⟩
     ⟨[⟨[⟨"Also", 20, 0⟩]⟩]⟩ (by decide) (by decide) (by decide) (by decide)⟩

namespace C1a

theorem dedupFold_sub : ∀ (l : List OutlineEntry) (acc : List OutlineEntry × List String),
    acc.1 ⊆ (dedupFold l acc).1
  | [], _ => fun _ hx => hx
  | h :: t, acc => by
    unfold dedupFold
    by_cases hc : acc.2.contains h.text = true
    · rw [if_pos hc]
      exact dedupFold_sub t acc
    · rw [if_neg hc]
      intro x hx
      exact dedupFold_sub t (acc.1 ++ [h], acc.2 ++ [h.text])
        (List.mem_append.mpr (Or.inl hx))

theorem dedupFold_first_occurrence :
    ∀ (l : List OutlineEntry) (acc : List OutlineEntry × List String)
      (e : OutlineEntry), e ∈ (dedupFold l acc).1 →
    e ∈ acc.1 ∨ (e.text ∉ acc.2 ∧ l.find? (fun x => x.text == e.text) = some e)
  | [], _, e, he => Or.inl he
  | hd :: t, acc, e, he => by
    unfold dedupFold at he
    by_cases hc : acc.2.contains hd.text = true
    · rw [if_pos hc] at he
      rcases dedupFold_first_occurrence t acc e he with h | ⟨hne, hfind⟩
      · exact Or.inl h
      · refine Or.inr ⟨hne, ?_⟩
        have hneq : hd.text ≠ e.text := by
          intro heq
          exact hne (heq ▸ List.mem_of_elem_eq_true hc)
        rw [List.find?_cons_of_neg _ (by simpa using hneq)]
        exact hfind
    · rw [if_neg hc] at he
      rcases dedupFold_first_occurrence t (acc.1 ++ [hd], acc.2 ++ [hd.text]) e he with
        h | ⟨hne, hfind⟩
      · rcases List.mem_append.mp h with hin | hnew
        · exact Or.inl hin
        · have he' : e = hd := List.mem_singleton.mp hnew
          subst he'
          refine Or.inr ⟨fun hmem => hc (List.elem_eq_true_of_mem hmem), ?_⟩
          rw [List.find?_cons_of_pos _ (by simp)]
      · have hne1 : e.text ∉ acc.2 := fun hmem => hne (List.mem_append.mpr (Or.inl hmem))
        have hne2 : e.text ≠ hd.text := by
          intro heq
          exact hne (List.mem_append.mpr (Or.inr (by simp [heq])))
        refine Or.inr ⟨hne1, ?_⟩
        rw [List.find?_cons_of_neg _ (by simpa using hne2.symm)]
        exact hfind

theorem dedupFold_complete :
    ∀ (l : List OutlineEntry) (acc : List OutlineEntry × List String),
    (∀ s ∈ acc.2, ∃ e ∈ acc.1, e.text = s) →
    ∀ x ∈ l, ∃ e ∈ (dedupFold l acc).1, e.text = x.text
  | [], _, _, x, hx => absurd hx (List.not_mem_nil x)
  | hd :: t, acc, hinv, x, hx => by
    unfold dedupFold
    by_cases hc : acc.2.contains hd.text = true
    · rw [if_pos hc]
      rcases List.mem_cons.mp hx with hxh | hxt
      · subst hxh
        obtain ⟨e, hemem, hetext⟩ := hinv x.text (List.mem_of_elem_eq_true hc)
        exact ⟨e, dedupFold_sub t acc hemem, hetext⟩
      · exact dedupFold_complete t acc hinv x hxt
    · rw [if_neg hc]
      have hinv' : ∀ s ∈ acc.2 ++ [hd.text], ∃ e ∈ acc.1 ++ [hd], e.text = s := by
        intro s hs
        rcases List.mem_append.mp hs with hold | hnew
        · obtain ⟨e, hemem, hetext⟩ := hinv s hold
          exact ⟨e, List.mem_append.mpr (Or.inl hemem), hetext⟩
        · exact ⟨hd, List.mem_append.mpr (Or.inr (by simp)), (List.mem_singleton.mp hnew).symm⟩
      rcases List.mem_cons.mp hx with hxh | hxt
      · subst hxh
        exact ⟨x, dedupFold_sub t _ (List.mem_append.mpr (Or.inr (by simp))), rfl⟩
      · exact dedupFold_complete t _ hinv' x hxt

theorem dedupFold_nodup :
    ∀ (l : List OutlineEntry) (acc : List OutlineEntry × List String),
    (acc.1.map OutlineEntry.text).Nodup →
    (∀ s, s ∈ acc.2 ↔ s ∈ acc.1.map OutlineEntry.text) →
    ((dedupFold l acc).1.map OutlineEntry.text).Nodup
  | [], _, hnd, _ => hnd
  | hd :: t, acc, hnd, hiff => by
    unfold dedupFold
    by_cases hc : acc.2.contains hd.text = true
    · rw [if_pos hc]
      exact dedupFold_nodup t acc hnd hiff
    · rw [if_neg hc]
      have hnotseen : hd.text ∉ acc.1.map OutlineEntry.text := by
        intro hmem
        exact hc (List.elem_eq_true_of_mem ((hiff hd.text).mpr hmem))
      have hnd' : ((acc.1 ++ [hd]).map OutlineEntry.text).Nodup := by
        rw [List.map_append, List.nodup_append]
        refine ⟨hnd, by simp, ?_⟩
        intro a ha hb
        simp only [List.map_cons, List.map_nil, List.mem_singleton] at hb
        exact hnotseen (hb ▸ ha)
      have hiff' : ∀ s, s ∈ acc.2 ++ [hd.text] ↔ s ∈ (acc.1 ++ [hd]).map OutlineEntry.text := by
        intro s
        rw [List.map_append, List.mem_append, List.mem_append, hiff s]
        simp
      exact dedupFold_nodup t _ hnd' hiff'

/-- A concrete assembly instance: the text "X " appears on pages 1 and
2; the page-1 entry (an H2) wins. -/
def introW : List OutlineEntry := [⟨"H1", "X ", 2⟩]

/-- The page-1 entries of the instance. -/
def mainW : List OutlineEntry := [⟨"H2", "X ", 1⟩, ⟨"H1", "Y ", 1⟩]

end C1a

/-- C7. The assembled rule-engine outline never contains two entries
with identical text: among the combined intro and numbered headings
(stably sorted ascending by page, intro entries before numbered ones on
the same page), exactly the first occurrence of each text in that order
is kept, and every text of the combined list survives. -/
theorem c7_outline_dedup_first_occurrence (intro main : List C1a.OutlineEntry) :
    ((C1a.assembleOutline intro main).map C1a.OutlineEntry.text).Nodup
    ∧ (∀ e ∈ C1a.dedupByText (C1a.sortByPage (intro ++ main)),
        (C1a.sortByPage (intro ++ main)).find? (fun x => x.text == e.text) = some e)
    ∧ (∀ x ∈ C1a.sortByPage (intro ++ main),
        ∃ e ∈ C1a.dedupByText (C1a.sortByPage (intro ++ main)), e.text = x.text) := by
  refine ⟨?_, ?_, ?_⟩
  · have hmap : (C1a.assembleOutline intro main).map C1a.OutlineEntry.text
        = (C1a.dedupByText (C1a.sortByPage (intro ++ main))).map C1a.OutlineEntry.text := by
      unfold C1a.assembleOutline
      rw [List.map_map]
      rfl
    rw [hmap]
    exact C1a.dedupFold_nodup (C1a.sortByPage (intro ++ main)) ([], [])
      List.nodup_nil (fun s => by simp)
  · intro e he
    rcases C1a.dedupFold_first_occurrence (C1a.sortByPage (intro ++ main)) ([], []) e he with
      h | ⟨_, hfind⟩
    · exact absurd h (List.not_mem_nil e)
    · exact hfind
  · intro x hx
    exact C1a.dedupFold_complete (C1a.sortByPage (intro ++ main)) ([], [])
      (fun s hs => absurd hs (List.not_mem_nil s)) x hx

/-- C7 witness: the theorem applied to a combined list in which the
text "X " occurs twice; the kept entry is the page-1 occurrence. -/
theorem c7_outline_dedup_first_occurrence_witness :
    ((C1a.assembleOutline C1a.introW C1a.mainW).map C1a.OutlineEntry.text).Nodup
    ∧ (C1a.sortByPage (C1a.introW ++ C1a.mainW)).find?
        (fun x => x.text == (⟨"H2", "X ", 1⟩ : C1a.OutlineEntry).text) = some ⟨"H2", "X ", 1⟩ :=
  ⟨(c7_outline_dedup_first_occurrence C1a.introW C1a.mainW).1,
   (c7_outline_dedup_first_occurrence C1a.introW C1a.mainW).2.1 ⟨"H2", "X ", 1⟩ (by decide)⟩

namespace C1a

theorem findIdxQ_of_mem : ∀ (l : List ℚ) (a : ℚ), a ∈ l → ∃ k, findIdxQ a l = some k
  | [], a, ha => absurd ha (List.not_mem_nil a)
  | x :: xs, a, ha => by
    unfold findIdxQ
    by_cases hx : x = a
    · rw [if_pos hx]
      exact ⟨0, rfl⟩
    · rw [if_neg hx]
      have ha' : a ∈ xs := by
        rcases List.mem_cons.mp ha with h | h
        · exact absurd h.symm hx
        · exact h
      obtain ⟨k, hk⟩ := findIdxQ_of_mem xs a ha'
      exact ⟨k + 1, by rw [hk]; rfl⟩

theorem findIdxQ_of_not_mem : ∀ (l : List ℚ) (a : ℚ), a ∉ l → findIdxQ a l = none
  | [], _, _ => rfl
  | x :: xs, a, ha => by
    have hx : x ≠ a := fun h => ha (h ▸ List.mem_cons_self x xs)
    have ha' : a ∉ xs := fun h => ha (List.mem_cons_of_mem x h)
    unfold findIdxQ
    rw [if_neg hx, findIdxQ_of_not_mem xs a ha']
    rfl

theorem sizeLevel_pos (l : List ℚ) (q : ℚ) : 1 ≤ sizeLevel l q := by
  unfold sizeLevel
  cases findIdxQ q l with
  | none => simp
  | some k => simp

theorem sizeLevel_cons_head (x : ℚ) (xs : List ℚ) : sizeLevel (x :: xs) x = 1 := by
  simp [sizeLevel, findIdxQ]

theorem sizeLevel_cons_ne (x a : ℚ) (xs : List ℚ) (hne : x ≠ a) (hmem : a ∈ xs) :
    sizeLevel (x :: xs) a = sizeLevel xs a + 1 := by
  obtain ⟨k, hk⟩ := findIdxQ_of_mem xs a hmem
  simp [sizeLevel, findIdxQ, if_neg hne, hk]

theorem sizeLevel_lt : ∀ (l : List ℚ), l.Pairwise (· > ·) → ∀ a b : ℚ, a ∈ l → b ∈ l →
    b < a → sizeLevel l a < sizeLevel l b
  | [], _, a, _, ha, _, _ => absurd ha (List.not_mem_nil a)
  | x :: xs, hp, a, b, ha, hb, hab => by
    have hpx : ∀ y ∈ xs, x > y := (List.pairwise_cons.mp hp).1
    have hptail := (List.pairwise_cons.mp hp).2
    by_cases hax : a = x
    · subst hax
      have hbx : b ≠ a := ne_of_lt hab
      have hbxs : b ∈ xs := by
        rcases List.mem_cons.mp hb with h | h
        · exact absurd h hbx
        · exact h
      rw [sizeLevel_cons_head, sizeLevel_cons_ne a b xs (ne_of_gt hab) hbxs]
      have := sizeLevel_pos xs b
      omega
    · have haxs : a ∈ xs := by
        rcases List.mem_cons.mp ha with h | h
        · exact absurd h hax
        · exact h
      have hbx : b ≠ x := by
        intro h
        subst h
        exact absurd hab (lt_asymm (hpx a haxs))
      have hbxs : b ∈ xs := by
        rcases List.mem_cons.mp hb with h | h
        · exact absurd h hbx
        · exact h
      rw [sizeLevel_cons_ne x a xs (fun h => hax h.symm) haxs,
        sizeLevel_cons_ne x b xs (fun h => hbx h.symm) hbxs]
      have := sizeLevel_lt xs hptail a b haxs hbxs hab
      omega

theorem findIdxQ_get : ∀ (l : List ℚ), l.Nodup → ∀ (i : Nat) (h : i < l.length),
    findIdxQ (l.get ⟨i, h⟩) l = some i
  | [], _, i, h => absurd h (by simp)
  | x :: xs, _, 0, _ => by simp [findIdxQ]
  | x :: xs, hnd, i + 1, h => by
    have hx : x ∉ xs := (List.nodup_cons.mp hnd).1
    have hnd' := (List.nodup_cons.mp hnd).2
    have hlt : i < xs.length := Nat.lt_of_succ_lt_succ h
    have hget : (x :: xs).get ⟨i + 1, h⟩ = xs.get ⟨i, hlt⟩ := rfl
    have hne : x ≠ xs.get ⟨i, hlt⟩ := fun heq => hx (heq ▸ xs.get_mem i hlt)
    rw [hget]
    unfold findIdxQ
    rw [if_neg hne, findIdxQ_get xs hnd' i hlt]
    rfl

theorem distinctSizesDesc_nodup (l : List ℚ) : (distinctSizesDesc l).Nodup :=
  (List.perm_insertionSort _ _).nodup_iff.mpr (List.nodup_dedup l)

theorem mem_distinctSizesDesc (l : List ℚ) (a : ℚ) : a ∈ distinctSizesDesc l ↔ a ∈ l := by
  unfold distinctSizesDesc
  rw [(List.perm_insertionSort _ _).mem_iff, List.mem_dedup]

theorem distinctSizesDesc_pairwise_gt (l : List ℚ) :
    (distinctSizesDesc l).Pairwise (fun a b : ℚ => a > b) := by
  have h1 : (distinctSizesDesc l).Pairwise (fun a b : ℚ => a ≥ b) :=
    List.sorted_insertionSort _ _
  have h2 : (distinctSizesDesc l).Pairwise (fun a b : ℚ => a ≠ b) := distinctSizesDesc_nodup l
  exact (h1.and h2).imp (fun h => lt_of_le_of_ne h.1 h.2.symm)

/-- Concrete Pass-3 candidates for the closed instance. -/
def hsW : List MainHeading := [⟨"1. A", 14, 1⟩, ⟨"1.1 B", 12, 1⟩]

end C1a

/-- C8. Among Pass-3 numbered-heading candidates, a larger font size
never gets a larger level number: the i-th largest distinct candidate
size maps to level number i+1, sizes outside the distinct-size map
default to 9, and size A > size B implies level(A) ≤ level(B). -/
theorem c8_level_map_monotone (hs : List C1a.MainHeading) (a b : C1a.MainHeading)
    (ha : a ∈ hs) (hb : b ∈ hs) (hab : b.size < a.size) :
    C1a.sizeLevel (C1a.sizesOf hs) a.size ≤ C1a.sizeLevel (C1a.sizesOf hs) b.size
    ∧ (∀ (i : Nat) (hi : i < (C1a.sizesOf hs).length),
        C1a.sizeLevel (C1a.sizesOf hs) ((C1a.sizesOf hs).get ⟨i, hi⟩) = i + 1)
    ∧ (∀ q : ℚ, q ∉ C1a.sizesOf hs → C1a.sizeLevel (C1a.sizesOf hs) q = 9) := by
  refine ⟨?_, ?_, ?_⟩
  · have hamem : a.size ∈ C1a.sizesOf hs :=
      (C1a.mem_distinctSizesDesc _ _).mpr (List.mem_map.mpr ⟨a, ha, rfl⟩)
    have hbmem : b.size ∈ C1a.sizesOf hs :=
      (C1a.mem_distinctSizesDesc _ _).mpr (List.mem_map.mpr ⟨b, hb, rfl⟩)
    exact le_of_lt (C1a.sizeLevel_lt (C1a.sizesOf hs)
      (C1a.distinctSizesDesc_pairwise_gt _) a.size b.size hamem hbmem hab)
  · intro i hi
    unfold C1a.sizeLevel
    rw [C1a.findIdxQ_get (C1a.sizesOf hs) (C1a.distinctSizesDesc_nodup _) i hi]
  · intro q hq
    unfold C1a.sizeLevel
    rw [C1a.findIdxQ_of_not_mem (C1a.sizesOf hs) q hq]

/-- C8 witness: the theorem applied to two candidates of sizes 14 and
12 and to the unmapped size 10. -/
theorem c8_level_map_monotone_witness :
    C1a.sizeLevel (C1a.sizesOf C1a.hsW) (14 : ℚ) ≤ C1a.sizeLevel (C1a.sizesOf C1a.hsW) (12 : ℚ)
    ∧ C1a.sizeLevel (C1a.sizesOf C1a.hsW) (10 : ℚ) = 9 :=
  ⟨(c8_level_map_monotone C1a.hsW ⟨"1. A", 14, 1⟩ ⟨"1.1 B", 12, 1⟩
      (by decide) (by decide) (by decide)).1,
   (c8_level_map_monotone C1a.hsW ⟨"1. A", 14, 1⟩ ⟨"1.1 B", 12, 1⟩
      (by decide) (by decide) (by decide)).2.2 10 (by decide)⟩
